import Mathlib

/-!
Verification development for the ledger durability and materialization engine
of `src/backtab/data_repo.py`.

Monetary values are modelled as rationals (the source uses fixed-point
decimals; every arithmetic operation appearing in the modelled code is exact
on rationals, and the explicit `quantize` calls are modelled by
`roundHalfEven`).  Python exceptions are modelled by an explicit error type;
a method that can raise returns the raised error together with the state the
object is left in.  The external version-control tool is modelled by an
abstract repository state plus a trace of the commands issued to it.
-/

abbrev Currency := String
abbrev Account := String

/-- Association-list lookup, modelling Python dict access (`d[k]` / `k in d`). -/
def alookup {α : Type} : List (String × α) → String → Option α
  | [], _ => none
  | (k, v) :: rest, key => if k = key then some v else alookup rest key

/-- Association-list update-or-append, modelling Python dict assignment `d[k] = v`. -/
def aset {α : Type} : List (String × α) → String → α → List (String × α)
  | [], key, v => [(key, v)]
  | (k, w) :: rest, key, v => if k = key then (k, v) :: rest else (k, w) :: aset rest key v

/-- The Python exceptions that the modelled code can raise.
`updateFailed` is the repository's own `UpdateFailed`; `pushRejected` stands
for the `CalledProcessError` of a failed `git push`. -/
inductive Err where
  | attributeError
  | typeError
  | valueError
  | assertionError
  | fileExists
  | pushRejected
  | updateFailed
deriving DecidableEq, Repr

/-- Round-half-to-even to an integer, the rounding rule of
`decimal.ROUND_HALF_EVEN`. -/
def roundHalfEven (q : ℚ) : ℤ :=
  if Int.fract q < (1 : ℚ) / 2 then ⌊q⌋
  else if (1 : ℚ) / 2 < Int.fract q then ⌊q⌋ + 1
  else if 2 ∣ ⌊q⌋ then ⌊q⌋ else ⌊q⌋ + 1

/-- `parse_price`: quantize to two fractional digits, round-half-to-even. -/
def parse_price (q : ℚ) : ℚ := (roundHalfEven (q * 100) : ℚ) / 100

/-- A UTC datetime: a day number plus a time-of-day fraction.
`datetime.date()` drops the time-of-day. -/
structure DateTime where
  day : ℤ
  tod : ℚ
deriving DecidableEq, Repr

/-- `datetime.date()`: reduce a datetime to a bare date. -/
def DateTime.date (d : DateTime) : ℤ := d.day

/-- One leg of a transaction, as built by `bcdata.create_simple_posting`. -/
structure Posting where
  account : Account
  amount : ℚ
  currency : Currency
deriving DecidableEq, Repr

/-- A beancount multi-currency inventory, as a currency-indexed bag. -/
abbrev BInv := List (Currency × ℚ)

/-- `Inventory.get_currency_units(c).number`: zero when the currency is absent. -/
def BInv.getUnits (inv : BInv) (c : Currency) : ℚ := (alookup inv c).getD 0

/-- `Inventory.add_amount`: add a quantity to the position of one currency. -/
def BInv.addAmount (inv : BInv) (c : Currency) (q : ℚ) : BInv :=
  match alookup inv c with
  | some old => aset inv c (old + q)
  | none => aset inv c q

/-- The value held in `Member.balance`.  `Member.__init__` stores a bare
scalar `decimal.Decimal("0.00")`; `load_data` later overwrites it with a
beancount `Inventory`.  Calling an `Inventory` method on the scalar raises
`AttributeError`. -/
inductive BalanceVal where
  | scalar : ℚ → BalanceVal
  | inventory : BInv → BalanceVal
deriving DecidableEq, Repr

def CASH_ACCT : String := "Assets:Cash:Bar"

structure Member where
  internal_name : String
  display_name : String
  account : Account
  balance : BalanceVal
deriving DecidableEq, Repr

/-- `Member.__init__`: the reserved cash account gets fixed names; every other
account must have exactly four `:`-separated components (`ValueError`
otherwise).  The fresh balance is the scalar decimal `0.00`. -/
def Member.init (account : Account) : Except Err Member :=
  let account_parts := account.splitOn ":"
  if account = "Assets:Cash:Bar" then
    .ok { internal_name := "--cash--", display_name := "--CASH--",
          account := account, balance := .scalar 0 }
  else if account_parts.length ≠ 4 then
    .error .valueError
  else
    let n := account_parts.getLastD ""
    .ok { internal_name := n, display_name := n, account := account, balance := .scalar 0 }

/-- `Member.balance_eur`: queries the EUR units of the balance inventory.
On a freshly constructed member the balance is a scalar decimal, which has no
`get_currency_units` method, so the access raises `AttributeError`. -/
def Member.balance_eur (m : Member) : Except Err ℚ :=
  match m.balance with
  | .scalar _ => .error .attributeError
  | .inventory inv => .ok (parse_price (inv.getUnits "EUR"))

structure Payback where
  account : Account
  amount : ℚ
deriving DecidableEq, Repr

/-- A parsed entry of the static product catalog (`products.yml`): the
`payback` key is optional. -/
structure PaybackDef where
  account : Account
  amount : ℚ
deriving DecidableEq, Repr

structure ProductDef where
  name : String
  currency : Currency
  price : ℚ
  payback : Option PaybackDef
deriving DecidableEq, Repr

/-- A constructed `Product`.  The `payback` field models the Python instance
attribute: `none` means the attribute was never assigned (the class-body
annotation alone creates no attribute), so reading it raises
`AttributeError`; `some pb` means the attribute holds `pb`. -/
structure Product where
  name : String
  currency : Currency
  price : ℚ
  payback : Option (Option Payback)
deriving DecidableEq, Repr

/-- `Product.__init__`: prices are quantized with `parse_price`; the
`payback` attribute is assigned only when the definition has a `payback`
key — there is no `else` branch assigning `None`. -/
def Product.init (d : ProductDef) : Product :=
  { name := d.name, currency := d.currency, price := parse_price d.price,
    payback := d.payback.map fun pb => some ⟨pb.account, parse_price pb.amount⟩ }

/-- Reading `product.payback`: `AttributeError` when the attribute was never
assigned. -/
def Product.getPayback (p : Product) : Except Err (Option Payback) :=
  match p.payback with
  | none => .error .attributeError
  | some pb => .ok pb

/-- A beancount transaction as assembled by the builders: the two metadata
entries the code writes (`type`, and `timestamp` holding a stringified
datetime, modelled by the datetime itself since `str` is injective on
datetimes), the bare date, the narration title, and the postings. -/
structure Txn where
  meta_type : Option String
  meta_timestamp : Option DateTime
  date : ℤ
  narration : String
  postings : List Posting
deriving DecidableEq, Repr

/-- `Transaction.__init__` on the path where a title is provided.  `now` is
the value of `datetime.datetime.utcnow()` at construction time.  When no date
is supplied the current time is used; in either case the datetime is reduced
to a bare date and the metadata timestamp is set to `str(utcnow())` — the
current time, not the caller-supplied one. -/
def Transaction.initSome (title : String) (date : Option DateTime)
    (mtype : Option String) (now : DateTime) : Txn :=
  let d := date.getD now
  { meta_type := mtype, meta_timestamp := some now,
    date := d.date, narration := title, postings := [] }

/-- `Transaction.__init__` in full: a missing title raises `TypeError`. -/
def Transaction.init (title : Option String) (date : Option DateTime)
    (mtype : Option String) (now : DateTime) : Except Err Txn :=
  match title with
  | none => .error .typeError
  | some t => .ok (Transaction.initSome t date mtype now)

/-- `bcdata.create_simple_posting`: append one posting. -/
def addPosting (t : Txn) (a : Account) (q : ℚ) (c : Currency) : Txn :=
  { t with postings := t.postings ++ [⟨a, q, c⟩] }

/-- `paybacks[account] += amount` on the `defaultdict`: accumulate into the
existing entry or append a fresh one. -/
def addPayback : List (Account × ℚ) → Account → ℚ → List (Account × ℚ)
  | [], a, amt => [(a, amt)]
  | (b, x) :: rest, a, amt =>
    if b = a then (b, x + amt) :: rest else (b, x) :: addPayback rest a amt

/-- The per-item loop of `BuyTxn.__init__`: accumulate the charge, accumulate
per-payee paybacks (reading `product.payback` can raise `AttributeError`),
and post the quantity legs against the inventory account and the buyer. -/
def BuyTxn.loop (buyer : Member) :
    List (Product × ℤ) → ℚ × List (Account × ℚ) × Txn →
    Except Err (ℚ × List (Account × ℚ) × Txn)
  | [], acc => .ok acc
  | (p, qty) :: rest, (charge, pbs, t) =>
    let charge := charge + p.price * (qty : ℚ)
    match p.getPayback with
    | .error e => .error e
    | .ok pbOpt =>
      let pbs := match pbOpt with
        | some pb => addPayback pbs pb.account (pb.amount * (qty : ℚ))
        | none => pbs
      let t := addPosting t "Assets:Inventory:Bar" (-(qty : ℚ)) p.currency
      let t := addPosting t buyer.account (qty : ℚ) p.currency
      BuyTxn.loop buyer rest (charge, pbs, t)

/-- `BuyTxn.__init__`: after the item loop, charge the buyer the accumulated
total, credit each payback payee (reducing the residual charge), and let the
income account absorb the remainder. -/
def BuyTxn.init (buyer : Member) (products : List (Product × ℤ))
    (date : Option DateTime) (now : DateTime) : Except Err Txn :=
  let base := Transaction.initSome (buyer.display_name ++ " bought some stuff")
    date (some "purchase") now
  match BuyTxn.loop buyer products (0, [], base) with
  | .error e => .error e
  | .ok (charge, pbs, t) =>
    let t := addPosting t buyer.account charge "EUR"
    let folded := pbs.foldl
      (fun acc pkv => (acc.1 - pkv.2, addPosting acc.2 pkv.1 (-pkv.2) "EUR"))
      (charge, t)
    .ok (addPosting folded.2 "Income:Bar" (-folded.1) "EUR")

/-- `TransferTxn.__init__`: debit the payer, credit the payee, in EUR. -/
def TransferTxn.init (payer payee : Member) (amount : ℚ)
    (date : Option DateTime) (now : DateTime) : Txn :=
  let base := Transaction.initSome
    (payer.display_name ++ " gave " ++ payee.display_name ++ " a gift of €" ++ toString amount)
    date (some "transfer") now
  addPosting (addPosting base payer.account (-amount) "EUR") payee.account amount "EUR"

/-- `DepositTxn.__init__`: debit the member, credit the reserved cash account. -/
def DepositTxn.init (member : Member) (amount : ℚ)
    (date : Option DateTime) (now : DateTime) : Txn :=
  let base := Transaction.initSome
    (member.display_name ++ " deposited €" ++ toString amount)
    date (some "deposit") now
  addPosting (addPosting base member.account (-amount) "EUR") CASH_ACCT amount "EUR"

/-! ## The synchronized repository and the Commit Protocol -/

/-- The local clone of the synchronized repository: the committed head
revision and the working-tree files (each file a list of appended chunks).
The engine only ever appends whole chunks, never edits existing content. -/
structure Repo where
  rev : ℕ
  files : List (String × List String)
deriving DecidableEq, Repr

/-- One command issued to the external git tool or filesystem, recorded in a
trace so that theorems can talk about which operations were performed. -/
inductive GitCmd where
  | revParse (rev : ℕ)
  | push
  | reset (rev : ℕ)
  | add (file : String)
  | sleep
  | createExcl (name : String) (ok : Bool)
  | appendChunk (file : String) (chunk : String)
deriving DecidableEq, Repr

/-- Append a chunk to a file of the working tree (creating the file if absent). -/
def Repo.appendChunk (r : Repo) (f : String) (chunk : String) : Repo :=
  { r with files := aset r.files f (((alookup r.files f).getD []) ++ [chunk]) }

/-- `RepoData.git_transaction`, generic in the state `σ` carried through the
block (only the `Repo` part of `σ` is touched by `git reset --hard`; Python
attributes set by the block survive a reset).  Steps: record the head
revision (`git rev-parse HEAD`); run the block; on success attempt
`git push`; on a block exception or a rejected push, `git reset --hard` to
the recorded revision — restoring the recorded repository — and re-raise.
The result is the raised exception (if any), the final state, and the trace
of commands. -/
def git_transaction_on {σ : Type} (getRepo : σ → Repo) (setRepo : σ → Repo → σ)
    (pushOk : Repo → Bool) (block : σ → Except Err σ × List GitCmd) (s : σ) :
    Option Err × σ × List GitCmd :=
  let head := (getRepo s).rev
  match block s with
  | (.error e, tr) => (some e, s, .revParse head :: tr ++ [.reset head])
  | (.ok s', tr) =>
    if pushOk (getRepo s') then (none, s', .revParse head :: tr ++ [.push])
    else (some .pushRejected, setRepo s' (getRepo s), .revParse head :: tr ++ [.push, .reset head])

/-- `git_transaction` over a bare repository state. -/
def git_transaction (pushOk : Repo → Bool)
    (block : Repo → Except Err Repo × List GitCmd) (s : Repo) :
    Option Err × Repo × List GitCmd :=
  git_transaction_on id (fun _ r => r) pushOk block s

/-! ## apply_txn -/

/-- Per-currency sum of posting amounts. -/
def currencySum (ps : List Posting) (c : Currency) : ℚ :=
  (ps.map fun p => if p.currency = c then p.amount else 0).sum

/-- The balance assertion of `apply_txn`: the residual of the postings is
small, i.e. for every currency occurring in the postings the summed amount is
within the tolerance 0.01 derived from the smallest representable unit. -/
def isBalanced (t : Txn) : Bool :=
  t.postings.all fun p => |currencySum t.postings p.currency| ≤ 1 / 100

/-- Rendering a transaction to ledger text (`beancount.parser.printer.
print_entry`), an external black box; the model only needs some chunk to
append. -/
def printEntry (t : Txn) : String := t.narration

/-- The block `apply_txn` runs under the Commit Protocol: print the entry into
the open instance-ledger file and `git add` it. -/
def applyBlock (iname : String) (t : Txn) (r : Repo) : Except Err Repo × List GitCmd :=
  (.ok (r.appendChunk iname (printEntry t)),
   [.appendChunk iname (printEntry t), .add iname])

/-- The in-memory engine state touched by `apply_txn`: the account directory
(`accounts_raw`, mapping account path to the member holding the live balance)
and the repository clone. -/
structure Engine where
  accounts_raw : List (Account × Member)
  repo : Repo
deriving DecidableEq, Repr

/-- The materialization loop at the end of `apply_txn`: fold every posting
into the balance of the matching account when the account is known; unknown
accounts are skipped.  (On a member whose balance is still the scalar
decimal, `balance.add_amount` raises `AttributeError`, stopping the loop.) -/
def foldPostings : List Posting → List (Account × Member) →
    Option Err × List (Account × Member)
  | [], acc => (none, acc)
  | p :: rest, acc =>
    match alookup acc p.account with
    | none => foldPostings rest acc
    | some mem =>
      match mem.balance with
      | .scalar _ => (some .attributeError, acc)
      | .inventory inv =>
        foldPostings rest
          (aset acc p.account
            { mem with balance := .inventory (inv.addAmount p.currency p.amount) })

/-- `RepoData.apply_txn`: assert the zero-sum invariant; under the Commit
Protocol append the rendered transaction to this process's instance log and
stage it; only once that has succeeded, fold the postings into the in-memory
balances. -/
def apply_txn (pushOk : Repo → Bool) (iname : String) (e : Engine) (t : Txn) :
    Option Err × Engine × List GitCmd :=
  if isBalanced t = false then (some .assertionError, e, [])
  else
    match git_transaction pushOk (applyBlock iname t) e.repo with
    | (some err, repo', tr) => (some err, { e with repo := repo' }, tr)
    | (none, repo', tr) =>
      let folded := foldPostings t.postings e.accounts_raw
      (folded.1, { accounts_raw := folded.2, repo := repo' }, tr)

/-! ## load_data -/

/-- A ledger entry as far as `load_data` inspects it: an `Open` directive
(account plus optional `display_name` metadata) or anything else. -/
inductive LEntry where
  | openAcct (account : Account) (displayName : Option String)
  | otherEntry
deriving DecidableEq, Repr

/-- The external inputs of one `load_data` call: the parsed catalog file
(`rawIsList` is false when the YAML document is not a list), the parsed
ledger with its error flag, and the balance aggregation query result. -/
structure LoadInput where
  rawIsList : Bool
  rawProducts : List ProductDef
  ledgerEntries : List LEntry
  parseErrors : Bool
  balances : List (Account × BInv)
deriving DecidableEq, Repr

/-- The three directory fields of the engine that `load_data` swaps. -/
structure Fields where
  accounts : List (String × Member)
  accounts_raw : List (Account × Member)
  products : List (String × Product)
deriving DecidableEq, Repr

/-- The catalog loop of `load_data`: construct each product and insert it by
name, raising `UpdateFailed` on a duplicate name. -/
def buildProducts : List ProductDef → List (String × Product) →
    Except Err (List (String × Product))
  | [], acc => .ok acc
  | d :: rest, acc =>
    let p := Product.init d
    if (alookup acc p.name).isSome then .error .updateFailed
    else buildProducts rest (aset acc p.name p)

/-- The per-account slice of `load_data`'s loop body after `Member(...)`
succeeded: apply the `display_name` metadata when the `Open` directive
carries it, then assign the queried balance inventory. -/
def loadedMember (m0 : Member) (dn : Option String) (bal : BInv) : Member :=
  { m0 with
    display_name := dn.getD m0.display_name
    balance := BalanceVal.inventory bal }

/-- The account loop of `load_data`: for every `Open` directive whose account
has a computed balance, construct a `Member` (which can raise `ValueError`),
apply the `display_name` metadata, assign the queried balance inventory, and
insert it under both its internal name and its account path.  Accounts with
no computed balance are skipped with a warning. -/
def buildAccounts (balances : List (Account × BInv)) :
    List LEntry → List (String × Member) × List (Account × Member) →
    Except Err (List (String × Member) × List (Account × Member))
  | [], acc => .ok acc
  | .otherEntry :: rest, acc => buildAccounts balances rest acc
  | .openAcct a dn :: rest, (accs, accsRaw) =>
    match alookup balances a with
    | none => buildAccounts balances rest (accs, accsRaw)
    | some bal =>
      match Member.init a with
      | .error e => .error e
      | .ok m0 =>
        buildAccounts balances rest
          (aset accs (loadedMember m0 dn bal).internal_name (loadedMember m0 dn bal),
           aset accsRaw (loadedMember m0 dn bal).account (loadedMember m0 dn bal))

/-- `RepoData.load_data`: parse the catalog (duplicate names raise
`UpdateFailed`, a non-list document raises `TypeError`), fail on ledger parse
errors, build the member directory from the `Open` directives and the balance
query, and only after all of that succeeds reassign the engine's
`accounts` / `accounts_raw` / `products` fields. -/
def load_data (inp : LoadInput) (st : Fields) : Option Err × Fields :=
  if inp.rawIsList = false then (some .typeError, st)
  else
    match buildProducts inp.rawProducts [] with
    | .error e => (some e, st)
    | .ok products =>
      if inp.parseErrors then (some .updateFailed, st)
      else
        match buildAccounts inp.balances inp.ledgerEntries ([], []) with
        | .error e => (some e, st)
        | .ok built =>
          (none, { accounts := built.1, accounts_raw := built.2, products := products })

/-! ## open_instance_ledger -/

/-- The engine state touched by the instance-log allocator: the repository
clone and the `instance_ledger_name` attribute (a Python attribute, not
rolled back by `git reset`). -/
structure AllocState where
  repo : Repo
  instance_ledger_name : Option String
deriving DecidableEq, Repr

/-- One allocation attempt of the `open_instance_ledger` loop, as seen by the
environment: the generated candidate name, whether exclusive creation
collides, and whether the `git push` of this iteration succeeds. -/
structure Attempt where
  name : String
  collides : Bool
  pushOk : Bool
deriving DecidableEq, Repr

/-- The body of the `with git_transaction()` block of one allocation
iteration.  On a collision the `FileExistsError` is caught inside the block
(`sleep`, then `continue`); since `continue` exits the `with` statement
normally, the block reports success with the state unchanged — the protocol's
push step still runs afterwards.  Without a collision the candidate file is
created, `instance_ledger_name` is set, the include directive is appended to
the dynamic-includes file, and both files are staged. -/
def allocBlock (att : Attempt) (s : AllocState) :
    Except Err AllocState × List GitCmd :=
  let path := "ledger/" ++ att.name
  if att.collides then
    (.ok s, [.createExcl path false, .sleep])
  else
    let r1 := s.repo.appendChunk path ""
    let r2 := r1.appendChunk "ledger/dynamic.beancount"
      ("include \"" ++ att.name ++ "\"\n")
    (.ok { repo := r2, instance_ledger_name := some path },
     [.createExcl path true,
      .appendChunk "ledger/dynamic.beancount" ("include \"" ++ att.name ++ "\"\n"),
      .add path, .add "ledger/dynamic.beancount"])

/-- The `while self.instance_ledger_name is None` loop of
`open_instance_ledger`, driven by the list of per-attempt environment
outcomes (each retry generates a fresh candidate name).  Any exception raised
out of an iteration (e.g. a rejected push) propagates to the caller; the
model stops when the name is assigned or the attempt list is exhausted. -/
def allocLoop : List Attempt → AllocState → Option Err × AllocState × List GitCmd
  | atts, s =>
    if s.instance_ledger_name.isSome then (none, s, [])
    else
      match atts with
      | [] => (none, s, [])
      | att :: rest =>
        match git_transaction_on AllocState.repo
            (fun st r => { st with repo := r }) (fun _ => att.pushOk)
            (allocBlock att) s with
        | (some e, s', tr) => (some e, s', tr)
        | (none, s', tr) =>
          let next := allocLoop rest s'
          (next.1, next.2.1, tr ++ next.2.2)

/-! ## Derived observations and sample values -/

/-- Whether a fallible construction succeeded. -/
def isOkE {α : Type} : Except Err α → Bool
  | .ok _ => true
  | .error _ => false

/-- The postings of a successfully built transaction (empty on failure). -/
def okPostings : Except Err Txn → List Posting
  | .ok t => t.postings
  | .error _ => []

/-- Net posting amount booked against one account in one currency. -/
def acctCur (ps : List Posting) (a : Account) (c : Currency) : ℚ :=
  (ps.map fun p => if p.account = a ∧ p.currency = c then p.amount else 0).sum

/-- Amount an account is charged in EUR (its net positive posting amount). -/
def charged (ps : List Posting) (a : Account) : ℚ := acctCur ps a "EUR"

/-- Amount an account is credited in EUR (the negation of its net posting). -/
def credited (ps : List Posting) (a : Account) : ℚ := -(acctCur ps a "EUR")

/-- Total payback amount of the accumulated per-payee payback map. -/
def pbSum (pbs : List (Account × ℚ)) : ℚ := (pbs.map Prod.snd).sum

/-- The catalog's product names in order. -/
def namesOf (l : List ProductDef) : List String := l.map ProductDef.name

/-- Sample construction-time clock value. -/
def nowS : DateTime := ⟨738000, 0⟩

/-- A sample caller-supplied datetime lying in the past. -/
def dPast : DateTime := ⟨700000, 0⟩

def aliceAcct : Account := "Liabilities:Bar:Members:alice"

/-- A member as it exists after a load: balance is an inventory. -/
def aliceM : Member := ⟨"alice", "alice", aliceAcct, .inventory [("EUR", 10)]⟩

/-- The cash-box member after a load. -/
def cashM : Member := ⟨"--cash--", "--CASH--", CASH_ACCT, .inventory [("EUR", 50)]⟩

/-- The cash-box member as `Member.__init__` constructs it. -/
def cashFresh : Member := ⟨"--cash--", "--CASH--", "Assets:Cash:Bar", .scalar 0⟩

def payX : Account := "Liabilities:Bar:Members:xavier"

/-- A product costing 3.50 with a payback of 0.50 per unit to `payX`. -/
def prodPB : Product := Product.init ⟨"club-mate", "MATE", 7 / 2, some ⟨payX, 1 / 2⟩⟩

/-- A product costing 3.50 whose catalog entry has no `payback` key. -/
def prodNoPB : Product := Product.init ⟨"beer", "BEER", 7 / 2, none⟩

def engine1 : Engine := ⟨[(aliceAcct, aliceM), (CASH_ACCT, cashM)], ⟨0, []⟩⟩

def allocS0 : AllocState := ⟨⟨0, []⟩, none⟩

/-- An allocation attempt whose exclusive file creation collides. -/
def collAtt : Attempt := ⟨"host_20250101.beancount", true, true⟩

/-- A catalog with two products sharing one name. -/
def dupCatalog : LoadInput :=
  ⟨true, [⟨"mate", "MATE", 1, none⟩, ⟨"mate", "MATE", 2, none⟩], [], false, []⟩

def fields0 : Fields := ⟨[], [], []⟩

/-! ## Helper lemmas -/

theorem aux_alookup_aset {α : Type} (l : List (String × α)) (k : String) (v : α)
    (key : String) :
    alookup (aset l k v) key = if k = key then some v else alookup l key := by
  induction l with
  | nil => by_cases h : k = key <;> simp [aset, alookup, h]
  | cons hd tl ih =>
    obtain ⟨k0, v0⟩ := hd
    by_cases h0 : k0 = k
    · subst h0
      by_cases h1 : k0 = key <;> simp [aset, alookup, h1]
    · by_cases h1 : k0 = key
      · subst h1
        have hk : ¬ k = k0 := fun h => h0 h.symm
        simp [aset, h0, alookup, hk]
      · simp [aset, h0, alookup, h1, ih]

theorem aux_getUnits_addAmount (inv : BInv) (c : Currency) (q : ℚ) (c' : Currency) :
    (inv.addAmount c q).getUnits c' =
      if c = c' then inv.getUnits c' + q else inv.getUnits c' := by
  unfold BInv.addAmount BInv.getUnits
  cases h : alookup inv c with
  | none =>
    rw [aux_alookup_aset]
    by_cases hc : c = c'
    · subst hc; simp [h]
    · simp [hc]
  | some old =>
    rw [aux_alookup_aset]
    by_cases hc : c = c'
    · subst hc; simp [h]
    · simp [hc]

theorem aux_currencySum_append (a b : List Posting) (c : Currency) :
    currencySum (a ++ b) c = currencySum a c + currencySum b c := by
  simp [currencySum]

theorem aux_currencySum_single (a : Account) (q : ℚ) (c0 c : Currency) :
    currencySum [⟨a, q, c0⟩] c = if c0 = c then q else 0 := by
  simp [currencySum]

theorem aux_deposit_zero (m : Member) (A : ℚ) (d : Option DateTime) (now : DateTime)
    (c : Currency) : currencySum (DepositTxn.init m A d now).postings c = 0 := by
  by_cases h : "EUR" = c <;>
    simp [DepositTxn.init, addPosting, Transaction.initSome, currencySum, h]

theorem aux_transfer_zero (payer payee : Member) (A : ℚ) (d : Option DateTime)
    (now : DateTime) (c : Currency) :
    currencySum (TransferTxn.init payer payee A d now).postings c = 0 := by
  by_cases h : "EUR" = c <;>
    simp [TransferTxn.init, addPosting, Transaction.initSome, currencySum, h]

theorem aux_isBalanced_of_zero (t : Txn) (h : ∀ c, currencySum t.postings c = 0) :
    isBalanced t = true := by
  unfold isBalanced
  rw [List.all_eq_true]
  intro p _
  simp [h p.currency]

/-! ## C1: the Commit Protocol (git_transaction) -/

/-- C1: under `git_transaction`, a block failure or a rejected push forcibly
resets the local repository to the head revision recorded before the block
ran (the final state equals the recorded pre-block state and a
`git reset --hard` to the recorded revision is issued) and the original
failure is re-raised; when the block and the push both succeed, the command
trace is exactly rev-parse, the block's own commands, and the push — no reset
occurs. -/
theorem gitTransactionAtomicity (pushOk : Repo → Bool)
    (block : Repo → Except Err Repo × List GitCmd) (s : Repo) :
    (∀ e tr, block s = (.error e, tr) →
      git_transaction pushOk block s =
        (some e, s, .revParse s.rev :: tr ++ [.reset s.rev])) ∧
    (∀ s' tr, block s = (.ok s', tr) → pushOk s' = false →
      git_transaction pushOk block s =
        (some .pushRejected, s, .revParse s.rev :: tr ++ [.push, .reset s.rev])) ∧
    (∀ s' tr, block s = (.ok s', tr) → pushOk s' = true →
      git_transaction pushOk block s = (none, s', .revParse s.rev :: tr ++ [.push])) := by
  refine ⟨?_, ?_, ?_⟩
  · intro e tr hb
    simp [git_transaction, git_transaction_on, hb]
  · intro s' tr hb hp
    simp [git_transaction, git_transaction_on, hb, hp]
  · intro s' tr hb hp
    simp [git_transaction, git_transaction_on, hb, hp]

theorem gitTransactionAtomicity_witness :
    git_transaction (fun _ => false) (fun r => (.ok r, [])) ⟨0, []⟩ =
      (some .pushRejected, ⟨0, []⟩, [.revParse 0, .push, .reset 0]) :=
  (gitTransactionAtomicity (fun _ => false) (fun r => (.ok r, [])) ⟨0, []⟩).2.1
    ⟨0, []⟩ [] rfl rfl

/-! ## C2: apply_txn materializes only after durability -/

/-- C2: for a balanced transaction, when the push of the Commit Protocol
around the instance-log append is rejected, `apply_txn` raises the push
failure and leaves the whole engine — in particular every member balance in
`accounts_raw` — exactly as it was; only when the Commit Protocol succeeds
are the postings folded into the in-memory balances. -/
theorem applyTxnDurabilityFirst (pushOk : Repo → Bool) (iname : String) (e : Engine)
    (t : Txn) (hbal : isBalanced t = true) :
    (pushOk (e.repo.appendChunk iname (printEntry t)) = false →
      apply_txn pushOk iname e t =
        (some .pushRejected, e,
         [.revParse e.repo.rev, .appendChunk iname (printEntry t), .add iname,
          .push, .reset e.repo.rev])) ∧
    (pushOk (e.repo.appendChunk iname (printEntry t)) = true →
      apply_txn pushOk iname e t =
        ((foldPostings t.postings e.accounts_raw).1,
         { accounts_raw := (foldPostings t.postings e.accounts_raw).2,
           repo := e.repo.appendChunk iname (printEntry t) },
         [.revParse e.repo.rev, .appendChunk iname (printEntry t), .add iname,
          .push])) := by
  constructor <;> intro hp <;>
    simp [apply_txn, hbal, git_transaction, git_transaction_on, applyBlock, hp]

theorem applyTxnDurabilityFirst_witness :
    apply_txn (fun _ => false) "inst" engine1 (DepositTxn.init aliceM 5 none nowS) =
      (some .pushRejected, engine1,
       [.revParse engine1.repo.rev,
        .appendChunk "inst" (printEntry (DepositTxn.init aliceM 5 none nowS)),
        .add "inst", .push, .reset engine1.repo.rev]) :=
  (applyTxnDurabilityFirst (fun _ => false) "inst" engine1
    (DepositTxn.init aliceM 5 none nowS)
    (aux_isBalanced_of_zero _ (aux_deposit_zero aliceM 5 none nowS))).1 rfl

/-! ## The shape of a successfully constructed BuyTxn -/

theorem aux_currencySum_cons (p : Posting) (l : List Posting) (c : Currency) :
    currencySum (p :: l) c = (if p.currency = c then p.amount else 0) + currencySum l c := by
  simp [currencySum]

theorem aux_currencySum_pb (pbs : List (Account × ℚ)) (c : Currency) :
    currencySum (pbs.map fun kv => Posting.mk kv.1 (-kv.2) "EUR") c =
      if "EUR" = c then -(pbSum pbs) else 0 := by
  induction pbs with
  | nil => simp [currencySum, pbSum]
  | cons kv rest ih =>
    rw [List.map_cons, aux_currencySum_cons, ih]
    by_cases h : "EUR" = c
    · simp [h, pbSum, neg_add]
      ring
    · simp [h]

theorem aux_buyLoop_shape (buyer : Member) (items : List (Product × ℤ)) :
    ∀ (ch : ℚ) (pbs : List (Account × ℚ)) (t : Txn)
      (out : ℚ × List (Account × ℚ) × Txn),
      BuyTxn.loop buyer items (ch, pbs, t) = .ok out →
      ∃ ps, out.2.2 = { t with postings := t.postings ++ ps } ∧
        ∀ c, currencySum ps c = 0 := by
  induction items with
  | nil =>
    intro ch pbs t out h
    simp [BuyTxn.loop] at h
    exact ⟨[], by simp [← h], fun c => by simp [currencySum]⟩
  | cons pq rest ih =>
    intro ch pbs t out h
    obtain ⟨p, qty⟩ := pq
    rw [BuyTxn.loop] at h
    cases hpb : p.getPayback with
    | error e => rw [hpb] at h; simp at h
    | ok pbOpt =>
      rw [hpb] at h
      obtain ⟨ps, hout, hz⟩ := ih _ _ _ _ h
      refine ⟨⟨"Assets:Inventory:Bar", -(qty : ℚ), p.currency⟩ ::
              ⟨buyer.account, (qty : ℚ), p.currency⟩ :: ps, ?_, ?_⟩
      · rw [hout]; simp [addPosting]
      · intro c
        rw [aux_currencySum_cons, aux_currencySum_cons, hz c]
        by_cases h2 : p.currency = c <;> simp [h2]

theorem aux_pb_foldl (pbs : List (Account × ℚ)) :
    ∀ (ch : ℚ) (t : Txn),
      pbs.foldl (fun acc pkv => (acc.1 - pkv.2, addPosting acc.2 pkv.1 (-pkv.2) "EUR"))
        (ch, t) =
      (ch - pbSum pbs,
       { t with postings := t.postings ++ pbs.map fun kv => Posting.mk kv.1 (-kv.2) "EUR" }) := by
  induction pbs with
  | nil => intro ch t; simp [pbSum]
  | cons kv rest ih =>
    intro ch t
    rw [List.foldl_cons, ih]
    refine Prod.ext ?_ ?_
    · simp [pbSum, sub_sub]
    · simp [addPosting]

theorem aux_buy_shape (buyer : Member) (prods : List (Product × ℤ))
    (d : Option DateTime) (now : DateTime) (t : Txn)
    (h : BuyTxn.init buyer prods d now = .ok t) :
    ∃ ch pbs ps,
      t = { Transaction.initSome (buyer.display_name ++ " bought some stuff") d
              (some "purchase") now with
            postings := ps ++ ⟨buyer.account, ch, "EUR"⟩ ::
              (pbs.map fun kv => Posting.mk kv.1 (-kv.2) "EUR")
              ++ [⟨"Income:Bar", -(ch - pbSum pbs), "EUR"⟩] } ∧
      ∀ c, currencySum ps c = 0 := by
  rw [BuyTxn.init] at h
  cases hl : BuyTxn.loop buyer prods (0, [],
      Transaction.initSome (buyer.display_name ++ " bought some stuff") d
        (some "purchase") now) with
  | error e => rw [hl] at h; simp at h
  | ok out =>
    rw [hl] at h
    obtain ⟨ch, pbs, t1⟩ := out
    obtain ⟨ps, hshape, hz⟩ := aux_buyLoop_shape buyer prods 0 [] _ _ hl
    simp only at hshape
    refine ⟨ch, pbs, ps, ?_, hz⟩
    simp only [aux_pb_foldl] at h
    simp only [Except.ok.injEq] at h
    rw [← h, hshape]
    simp [addPosting, Transaction.initSome]

theorem aux_buy_zero (buyer : Member) (prods : List (Product × ℤ))
    (d : Option DateTime) (now : DateTime) (t : Txn)
    (h : BuyTxn.init buyer prods d now = .ok t) (c : Currency) :
    currencySum t.postings c = 0 := by
  obtain ⟨ch, pbs, ps, ht, hz⟩ := aux_buy_shape buyer prods d now t h
  subst ht
  simp only [aux_currencySum_append, aux_currencySum_cons, aux_currencySum_pb, hz c]
  by_cases h2 : "EUR" = c <;> simp [h2, currencySum] <;> ring

theorem aux_foldPostings_no_assert (ps : List Posting) :
    ∀ acc, (foldPostings ps acc).1 ≠ some .assertionError := by
  induction ps with
  | nil => intro acc; simp [foldPostings]
  | cons p rest ih =>
    intro acc
    rw [foldPostings]
    split
    · exact ih acc
    · split
      · simp
      · exact ih _

theorem aux_apply_no_assert (t : Txn) (hb : isBalanced t = true)
    (pushOk : Repo → Bool) (iname : String) (e : Engine) :
    (apply_txn pushOk iname e t).1 ≠ some .assertionError := by
  by_cases hp : pushOk (e.repo.appendChunk iname (printEntry t))
  · simp [apply_txn, hb, git_transaction, git_transaction_on, applyBlock, hp]
    exact aux_foldPostings_no_assert _ _
  · simp [apply_txn, hb, git_transaction, git_transaction_on, applyBlock, hp]

/-! ## C3: builder transactions satisfy the zero-sum invariant -/

/-- C3: every transaction produced by the three builders — any `BuyTxn` that
constructs successfully, any `TransferTxn`, any `DepositTxn` — has posting
amounts summing to zero in every currency (hence trivially within the 0.01
tolerance), so the balance assertion at the start of `apply_txn` never fires
on a builder-produced transaction. -/
theorem buildersZeroSum :
    (∀ buyer prods d now t, BuyTxn.init buyer prods d now = .ok t →
      (∀ c, currencySum t.postings c = 0) ∧ isBalanced t = true ∧
      ∀ pushOk iname e, (apply_txn pushOk iname e t).1 ≠ some .assertionError) ∧
    (∀ payer payee A d now,
      (∀ c, currencySum (TransferTxn.init payer payee A d now).postings c = 0) ∧
      isBalanced (TransferTxn.init payer payee A d now) = true ∧
      ∀ pushOk iname e,
        (apply_txn pushOk iname e (TransferTxn.init payer payee A d now)).1 ≠
          some .assertionError) ∧
    (∀ m A d now,
      (∀ c, currencySum (DepositTxn.init m A d now).postings c = 0) ∧
      isBalanced (DepositTxn.init m A d now) = true ∧
      ∀ pushOk iname e,
        (apply_txn pushOk iname e (DepositTxn.init m A d now)).1 ≠
          some .assertionError) := by
  refine ⟨?_, ?_, ?_⟩
  · intro buyer prods d now t h
    have hz := aux_buy_zero buyer prods d now t h
    have hb := aux_isBalanced_of_zero t hz
    exact ⟨hz, hb, fun pushOk iname e => aux_apply_no_assert t hb pushOk iname e⟩
  · intro payer payee A d now
    have hz := aux_transfer_zero payer payee A d now
    have hb := aux_isBalanced_of_zero _ hz
    exact ⟨hz, hb, fun pushOk iname e => aux_apply_no_assert _ hb pushOk iname e⟩
  · intro m A d now
    have hz := aux_deposit_zero m A d now
    have hb := aux_isBalanced_of_zero _ hz
    exact ⟨hz, hb, fun pushOk iname e => aux_apply_no_assert _ hb pushOk iname e⟩

theorem buildersZeroSum_witness :
    currencySum (DepositTxn.init aliceM 5 none nowS).postings "EUR" = 0 ∧
    isBalanced (DepositTxn.init aliceM 5 none nowS) = true :=
  ⟨(buildersZeroSum.2.2 aliceM 5 none nowS).1 "EUR",
   (buildersZeroSum.2.2 aliceM 5 none nowS).2.1⟩

/-! ## Evaluating parse_price on concrete cent amounts -/

theorem aux_roundHalfEven_int (n : ℤ) : roundHalfEven (n : ℚ) = n := by
  unfold roundHalfEven
  rw [Int.fract_intCast]
  norm_num

theorem aux_parse_price_cents (n : ℤ) : parse_price ((n : ℚ) / 100) = (n : ℚ) / 100 := by
  unfold parse_price
  have h : ((n : ℚ) / 100) * 100 = (n : ℚ) := by field_simp
  rw [h, aux_roundHalfEven_int]

theorem aux_pp35 : parse_price (7 / 2) = 7 / 2 := by
  have := aux_parse_price_cents 350
  norm_num at this
  convert this using 2

theorem aux_pp05 : parse_price (1 / 2) = 1 / 2 := by
  have := aux_parse_price_cents 50
  norm_num at this
  convert this using 2

theorem aux_pp05inv : parse_price 2⁻¹ = 2⁻¹ := by
  rw [← one_div]
  exact aux_pp05

theorem aux_prodPB_val : prodPB = ⟨"club-mate", "MATE", 7 / 2, some (some ⟨payX, 1 / 2⟩)⟩ := by
  simp [prodPB, Product.init, aux_pp35, aux_pp05inv, one_div]

theorem aux_buyPB_eq :
    BuyTxn.init aliceM [(prodPB, 2)] none nowS =
      .ok ⟨some "purchase", some ⟨738000, 0⟩, 738000, "alice bought some stuff",
        [⟨"Assets:Inventory:Bar", -2, "MATE"⟩, ⟨aliceAcct, 2, "MATE"⟩,
         ⟨aliceAcct, 7, "EUR"⟩, ⟨payX, -1, "EUR"⟩, ⟨"Income:Bar", -6, "EUR"⟩]⟩ := by
  rw [aux_prodPB_val]
  norm_num [BuyTxn.init, BuyTxn.loop, Transaction.initSome, addPosting, addPayback,
    Product.getPayback, aliceM, aliceAcct, payX, pbSum, nowS, DateTime.date]
  rfl

/-! ## C4: a purchase with payback -/

/-- C4: buying quantity 2 of a product priced 3.50 with a payback of 0.50 per
unit to `payX` produces EUR postings crediting `payX` exactly 1.00, crediting
the income account exactly 6.00, and charging the buyer exactly 7.00, which
equals price × quantity. -/
theorem buyPaybackExample :
    isOkE (BuyTxn.init aliceM [(prodPB, 2)] none nowS) = true ∧
    credited (okPostings (BuyTxn.init aliceM [(prodPB, 2)] none nowS)) payX = 1 ∧
    credited (okPostings (BuyTxn.init aliceM [(prodPB, 2)] none nowS)) "Income:Bar" = 6 ∧
    charged (okPostings (BuyTxn.init aliceM [(prodPB, 2)] none nowS)) aliceAcct = 7 ∧
    prodPB.price * 2 = 7 := by
  rw [aux_buyPB_eq]
  refine ⟨rfl, ?_, ?_, ?_, ?_⟩
  · simp [credited, acctCur, okPostings, payX, aliceAcct]
  · simp [credited, acctCur, okPostings, payX, aliceAcct]
  · simp [charged, acctCur, okPostings, payX, aliceAcct]
  · rw [aux_prodPB_val]; norm_num

/-! ## C5: a purchase of a product with no payback key -/

/-- C5 (refuted by the code): the claim says constructing a `BuyTxn` for a
product without a payback succeeds and charges/credits 7.00.  In the code,
`Product.__init__` never assigns the `payback` attribute when the catalog
entry has no `payback` key (the class-body annotation creates no attribute),
so `BuyTxn.__init__`'s read of `product.payback` raises `AttributeError` and
construction fails. -/
theorem buyNoPaybackRaises :
    BuyTxn.init aliceM [(prodNoPB, 2)] none nowS = .error .attributeError := by
  norm_num [BuyTxn.init, BuyTxn.loop, Product.getPayback, prodNoPB, Product.init]

/-! ## C6: load_data is atomic and rejects duplicate catalog names -/

theorem aux_buildProducts_dup : ∀ (l : List ProductDef) (acc : List (String × Product)),
    (¬ (namesOf l).Nodup ∨ ∃ d ∈ l, (alookup acc d.name).isSome) →
    buildProducts l acc = .error .updateFailed := by
  intro l
  induction l with
  | nil =>
    intro acc h
    rcases h with h | ⟨d, hd, _⟩
    · exact absurd List.nodup_nil h
    · exact absurd hd (List.not_mem_nil d)
  | cons d rest ih =>
    intro acc h
    rw [buildProducts]
    by_cases hd : (alookup acc (Product.init d).name).isSome
    · simp [hd]
    · simp only [hd, if_false, Bool.false_eq_true]
      apply ih
      rcases h with h | ⟨d', hd', hs⟩
      · rw [namesOf, List.map_cons, List.nodup_cons] at h
        push_neg at h
        by_cases hmem : d.name ∈ namesOf rest
        · right
          obtain ⟨d', hd', hnm⟩ := List.mem_map.mp hmem
          refine ⟨d', hd', ?_⟩
          rw [aux_alookup_aset]
          have hpn : (Product.init d).name = d.name := rfl
          simp [hnm, hpn]
        · left
          exact h hmem
      · rcases List.mem_cons.mp hd' with rfl | hmem
        · exact absurd hs hd
        · right
          refine ⟨d', hmem, ?_⟩
          rw [aux_alookup_aset]
          by_cases heq : (Product.init d).name = d'.name
          · simp [heq]
          · simp only [heq, if_false]
            exact hs

/-- C6: `load_data` on a catalog with two products sharing a name raises
`UpdateFailed` and leaves the engine's directory fields untouched; more
generally, whenever `load_data` raises any error, the `accounts`,
`accounts_raw` and `products` fields keep exactly their previous values —
they are reassigned only on full success. -/
theorem loadDataAtomic (inp : LoadInput) (st : Fields) :
    (inp.rawIsList = true → ¬ (namesOf inp.rawProducts).Nodup →
      load_data inp st = (some .updateFailed, st)) ∧
    (∀ e, (load_data inp st).1 = some e → (load_data inp st).2 = st) := by
  constructor
  · intro hlist hdup
    rw [load_data, hlist]
    rw [aux_buildProducts_dup _ _ (Or.inl hdup)]
    simp
  · intro e he
    by_cases h1 : inp.rawIsList = false
    · simp [load_data, h1]
    · cases hbp : buildProducts inp.rawProducts [] with
      | error e2 => simp [load_data, h1, hbp]
      | ok prods =>
        by_cases hpe : inp.parseErrors
        · simp [load_data, h1, hbp, hpe]
        · cases hba : buildAccounts inp.balances inp.ledgerEntries ([], []) with
          | error e3 => simp [load_data, h1, hbp, hpe, hba]
          | ok built =>
            rw [load_data] at he
            simp [h1, hbp, hpe, hba] at he

theorem loadDataAtomic_witness :
    load_data dupCatalog fields0 = (some .updateFailed, fields0) :=
  (loadDataAtomic dupCatalog fields0).1 rfl (by decide)

/-! ## C7: applying a deposit -/

theorem aux_apply_ok (pushOk : Repo → Bool) (iname : String) (e : Engine) (t : Txn)
    (hb : isBalanced t = true)
    (hp : pushOk (e.repo.appendChunk iname (printEntry t)) = true) :
    apply_txn pushOk iname e t =
      ((foldPostings t.postings e.accounts_raw).1,
       { accounts_raw := (foldPostings t.postings e.accounts_raw).2,
         repo := e.repo.appendChunk iname (printEntry t) },
       [.revParse e.repo.rev, .appendChunk iname (printEntry t), .add iname, .push]) := by
  simp [apply_txn, hb, git_transaction, git_transaction_on, applyBlock, hp]

theorem aux_deposit_postings (m : Member) (A : ℚ) (d : Option DateTime) (now : DateTime) :
    (DepositTxn.init m A d now).postings =
      [⟨m.account, -A, "EUR"⟩, ⟨CASH_ACCT, A, "EUR"⟩] := by
  simp [DepositTxn.init, addPosting, Transaction.initSome]

/-- C7: after a successful commit, applying a `DepositTxn` of amount `A` for
member `m` leaves the engine with: the member's entry holding its old
inventory with `A` subtracted from EUR, the cash account's entry holding its
old inventory with `A` added to EUR (so the EUR balances move by exactly
`-A` and `+A`), and every other account's entry untouched; no error is
raised. -/
theorem depositApply (pushOk : Repo → Bool) (iname : String) (e : Engine)
    (m : Member) (A : ℚ) (d : Option DateTime) (now : DateTime)
    (mm mc : Member) (invM invC : BInv)
    (hm : alookup e.accounts_raw m.account = some mm)
    (hmB : mm.balance = .inventory invM)
    (hc : alookup e.accounts_raw CASH_ACCT = some mc)
    (hcB : mc.balance = .inventory invC)
    (hne : m.account ≠ CASH_ACCT)
    (hp : pushOk (e.repo.appendChunk iname
            (printEntry (DepositTxn.init m A d now))) = true) :
    (apply_txn pushOk iname e (DepositTxn.init m A d now)).1 = none ∧
    alookup (apply_txn pushOk iname e (DepositTxn.init m A d now)).2.1.accounts_raw
        m.account =
      some { mm with balance := .inventory (invM.addAmount "EUR" (-A)) } ∧
    alookup (apply_txn pushOk iname e (DepositTxn.init m A d now)).2.1.accounts_raw
        CASH_ACCT =
      some { mc with balance := .inventory (invC.addAmount "EUR" A) } ∧
    (invM.addAmount "EUR" (-A)).getUnits "EUR" = invM.getUnits "EUR" - A ∧
    (invC.addAmount "EUR" A).getUnits "EUR" = invC.getUnits "EUR" + A ∧
    (∀ a, a ≠ m.account → a ≠ CASH_ACCT →
      alookup (apply_txn pushOk iname e (DepositTxn.init m A d now)).2.1.accounts_raw a =
        alookup e.accounts_raw a) := by
  have hbal : isBalanced (DepositTxn.init m A d now) = true :=
    aux_isBalanced_of_zero _ (aux_deposit_zero m A d now)
  have h2 : alookup (aset e.accounts_raw m.account
      { mm with balance := .inventory (invM.addAmount "EUR" (-A)) }) CASH_ACCT =
      some mc := by
    rw [aux_alookup_aset]
    simp [hne, hc]
  have hfold : foldPostings (DepositTxn.init m A d now).postings e.accounts_raw =
      (none,
       aset (aset e.accounts_raw m.account
          { mm with balance := .inventory (invM.addAmount "EUR" (-A)) }) CASH_ACCT
        { mc with balance := .inventory (invC.addAmount "EUR" A) }) := by
    rw [aux_deposit_postings]
    rw [foldPostings]
    simp only [hm, hmB]
    rw [foldPostings]
    simp only [h2, hcB]
    rw [foldPostings]
  rw [aux_apply_ok pushOk iname e _ hbal hp]
  refine ⟨by rw [hfold], ?_, ?_, ?_, ?_, ?_⟩
  · simp only [hfold]
    rw [aux_alookup_aset]
    have : ¬ CASH_ACCT = m.account := fun h => hne h.symm
    rw [if_neg this, aux_alookup_aset, if_pos rfl]
  · simp only [hfold]
    rw [aux_alookup_aset, if_pos rfl]
  · rw [aux_getUnits_addAmount]
    simp [sub_eq_add_neg]
  · rw [aux_getUnits_addAmount]
    simp
  · intro a ha hca
    simp only [hfold]
    rw [aux_alookup_aset, if_neg (fun h => hca h.symm),
        aux_alookup_aset, if_neg (fun h => ha h.symm)]

theorem depositApply_witness :
    (apply_txn (fun _ => true) "inst" engine1 (DepositTxn.init aliceM 5 none nowS)).1 =
      none ∧
    alookup (apply_txn (fun _ => true) "inst" engine1
        (DepositTxn.init aliceM 5 none nowS)).2.1.accounts_raw aliceAcct =
      some { aliceM with balance := .inventory (BInv.addAmount [("EUR", 10)] "EUR" (-5)) } ∧
    alookup (apply_txn (fun _ => true) "inst" engine1
        (DepositTxn.init aliceM 5 none nowS)).2.1.accounts_raw CASH_ACCT =
      some { cashM with balance := .inventory (BInv.addAmount [("EUR", 50)] "EUR" 5) } := by
  have h := depositApply (fun _ => true) "inst" engine1 aliceM 5 none nowS aliceM cashM
    [("EUR", 10)] [("EUR", 50)] rfl rfl rfl rfl (by decide) rfl
  exact ⟨h.1, h.2.1, h.2.2.1⟩

/-! ## C8: builder dates and the timestamp metadata -/

/-- C8 counterexample: for a deposit built with the caller-supplied past
datetime `dPast` while the clock reads `nowS`, the transaction's date is the
supplied bare date, but the `timestamp` metadata holds `str(utcnow())` — the
construction-time clock — and not the caller-supplied timestamp, refuting the
claim that the full caller-supplied timestamp is preserved. -/
theorem txnTimestampCounter :
    (DepositTxn.init aliceM 5 (some dPast) nowS).date = dPast.date ∧
    (DepositTxn.init aliceM 5 (some dPast) nowS).meta_timestamp = some nowS ∧
    (DepositTxn.init aliceM 5 (some dPast) nowS).meta_timestamp ≠ some dPast := by
  refine ⟨rfl, rfl, ?_⟩
  intro h
  simp [DepositTxn.init, Transaction.initSome, addPosting, nowS, dPast,
    DateTime.mk.injEq] at h

/-- C8 amended: every builder transaction's `date` is the caller-supplied
datetime reduced to a bare date (the current time's bare date when no date is
supplied), and the timestamp preserved in metadata is the construction-time
current time (`utcnow()`), not the caller-supplied timestamp. -/
theorem buildersDateMeta :
    (∀ buyer prods od now t, BuyTxn.init buyer prods od now = .ok t →
      t.date = (od.getD now).date ∧ t.meta_timestamp = some now) ∧
    (∀ payer payee A od now,
      (TransferTxn.init payer payee A od now).date = (od.getD now).date ∧
      (TransferTxn.init payer payee A od now).meta_timestamp = some now) ∧
    (∀ m A od now,
      (DepositTxn.init m A od now).date = (od.getD now).date ∧
      (DepositTxn.init m A od now).meta_timestamp = some now) := by
  refine ⟨?_, ?_, ?_⟩
  · intro buyer prods od now t h
    obtain ⟨ch, pbs, ps, ht, _⟩ := aux_buy_shape buyer prods od now t h
    subst ht
    exact ⟨rfl, rfl⟩
  · intro payer payee A od now
    exact ⟨rfl, rfl⟩
  · intro m A od now
    exact ⟨rfl, rfl⟩

theorem buildersDateMeta_witness :
    (DepositTxn.init aliceM 5 (some dPast) nowS).date = dPast.date ∧
    (DepositTxn.init aliceM 5 (some dPast) nowS).meta_timestamp = some nowS :=
  buildersDateMeta.2.2 aliceM 5 (some dPast) nowS

/-! ## C9: the allocation loop on a name collision -/

/-- C9 counterexample: running the allocation loop against a single attempt
whose exclusive creation collides (and whose push succeeds) produces a
command trace whose fourth command is a `git push`, issued for the failed
candidate: since `continue` exits the `with git_transaction()` block
normally, the Commit Protocol for the colliding attempt is not abandoned —
its publish step still runs — refuting the claim that no push is attempted
for a failed candidate. -/
theorem allocCollisionPush :
    allocLoop [collAtt] allocS0 =
      (none, allocS0,
       [.revParse 0, .createExcl "ledger/host_20250101.beancount" false, .sleep,
        .push]) ∧
    GitCmd.push ∈ (allocLoop [collAtt] allocS0).2.2 := by
  constructor
  · rfl
  · decide

/-- C9 amended: on a name collision the `FileExistsError` is caught inside
the protocol block and never surfaced, the allocator sleeps and retries with
the next freshly generated candidate, and the engine state entering the
retry is unchanged; however, because `continue` exits the `with` block
normally, the protocol's push step is still executed for the colliding
candidate (the attempt's trace ends in a push, with no reset). -/
theorem allocCollisionRetry (att : Attempt) (rest : List Attempt) (s : AllocState)
    (hn : s.instance_ledger_name = none) (hc : att.collides = true)
    (hp : att.pushOk = true) :
    allocLoop (att :: rest) s =
      ((allocLoop rest s).1, (allocLoop rest s).2.1,
       [.revParse s.repo.rev, .createExcl ("ledger/" ++ att.name) false, .sleep, .push]
         ++ (allocLoop rest s).2.2) := by
  conv_lhs => rw [allocLoop]
  simp [hn, hc, hp, git_transaction_on, allocBlock]

theorem allocCollisionRetry_witness :
    allocLoop [collAtt] allocS0 =
      ((allocLoop [] allocS0).1, (allocLoop [] allocS0).2.1,
       [.revParse 0, .createExcl "ledger/host_20250101.beancount" false, .sleep, .push]
         ++ (allocLoop [] allocS0).2.2) :=
  allocCollisionRetry collAtt [] allocS0 rfl rfl rfl

/-! ## C10: the Member balance lifecycle -/

theorem aux_buildAccounts_inv (balances : List (Account × BInv)) :
    ∀ (entries : List LEntry) (accs : List (String × Member))
      (accsRaw : List (Account × Member))
      (out : List (String × Member) × List (Account × Member)),
      buildAccounts balances entries (accs, accsRaw) = .ok out →
      (∀ a m, alookup accsRaw a = some m → ∃ inv, m.balance = .inventory inv) →
      (∀ a m, alookup out.2 a = some m → ∃ inv, m.balance = .inventory inv) := by
  intro entries
  induction entries with
  | nil =>
    intro accs accsRaw out h hbase
    simp [buildAccounts] at h
    intro a m hm
    rw [← h] at hm
    exact hbase a m hm
  | cons e rest ih =>
    intro accs accsRaw out h hbase
    cases e with
    | otherEntry =>
      rw [buildAccounts] at h
      exact ih _ _ _ h hbase
    | openAcct a0 dn =>
      rw [buildAccounts] at h
      cases hb : alookup balances a0 with
      | none =>
        rw [hb] at h
        exact ih _ _ _ h hbase
      | some bal =>
        rw [hb] at h
        cases hmi : Member.init a0 with
        | error e2 => rw [hmi] at h; simp at h
        | ok m0 =>
          rw [hmi] at h
          refine ih _ _ _ h ?_
          intro a m hm
          rw [aux_alookup_aset] at hm
          by_cases heq : (loadedMember m0 dn bal).account = a
          · rw [if_pos heq] at hm
            refine ⟨bal, ?_⟩
            rw [← Option.some.inj hm]
            rfl
          · rw [if_neg heq] at hm
            exact hbase a m hm

/-- C10: a freshly constructed `Member` carries the scalar decimal `0.00` in
its `balance` field (not a multi-currency inventory), so `balance_eur` on
such a member raises `AttributeError`; after a successful `load_data`, every
member reachable through `accounts_raw` holds an inventory balance assigned
from the aggregation query, on which `balance_eur` is defined. -/
theorem memberBalanceLifecycle :
    (∀ a m, Member.init a = .ok m →
      m.balance = .scalar 0 ∧ m.balance_eur = .error .attributeError) ∧
    (∀ inp st r a m, load_data inp st = (none, r) →
      alookup r.accounts_raw a = some m →
      ∃ inv, m.balance = .inventory inv ∧
        m.balance_eur = .ok (parse_price (inv.getUnits "EUR"))) := by
  constructor
  · intro a m h
    rw [Member.init] at h
    split_ifs at h with h1 h2
    · injection h with h3
      subst h3
      exact ⟨rfl, rfl⟩
    · injection h with h3
      subst h3
      exact ⟨rfl, rfl⟩
  · intro inp st r a m h hm
    by_cases h1 : inp.rawIsList = false
    · simp [load_data, h1] at h
    · cases hbp : buildProducts inp.rawProducts [] with
      | error e2 => simp [load_data, h1, hbp] at h
      | ok prods =>
        by_cases hpe : inp.parseErrors
        · simp [load_data, h1, hbp, hpe] at h
        · cases hba : buildAccounts inp.balances inp.ledgerEntries ([], []) with
          | error e3 => simp [load_data, h1, hbp, hpe, hba] at h
          | ok built =>
            simp [load_data, h1, hbp, hpe, hba] at h
            have h5 : r.accounts_raw = built.2 := by rw [← h]
            rw [h5] at hm
            obtain ⟨inv, hbm⟩ := aux_buildAccounts_inv inp.balances inp.ledgerEntries
              [] [] built hba (by intro x y hxy; simp [alookup] at hxy) a m hm
            exact ⟨inv, hbm, by simp [Member.balance_eur, hbm]⟩

theorem memberBalanceLifecycle_witness :
    cashFresh.balance = .scalar 0 ∧ cashFresh.balance_eur = .error .attributeError :=
  memberBalanceLifecycle.1 "Assets:Cash:Bar" cashFresh rfl
